import Mathlib

/-!
Verification development for the discorpy dot-pattern calibration pipeline.

The repository source under study is the orchestration script
`examples/example_01.py`; the library primitives it calls
(`prep.*`, `proc.*`, `post.*`) are modelled from the specification,
as noted on each definition.  All numeric values are rationals; the
floating-point square root of the numeric core is modelled by a
computable rational approximation that is exact on perfect squares.
-/

namespace Discorpy

/-- Integer square root by exhaustive search: the number of positive
integers whose square is at most `n`, i.e. the floor of the real root. -/
def isqrt (n : Nat) : Nat :=
  ((List.range (n + 1)).filter (fun k => k * k ≤ n)).length - 1

/-- Modelled from the spec: the floating square root used by the numeric
core (radius computations), as a computable rational approximation that
is exact whenever the scaled radicand is a perfect square. -/
def ratSqrt (q : ℚ) : ℚ :=
  (isqrt (q.num.toNat * q.den) : ℚ) / (q.den : ℚ)

/-- Evaluate a polynomial given by its ascending coefficient list
(Horner scheme), the representation used for distortion models. -/
def polyEval : List ℚ → ℚ → ℚ
  | [], _ => 0
  | a :: rest, r => a + r * polyEval rest r

/-- Dot product of two coefficient rows. -/
def dotProd (a b : List ℚ) : ℚ :=
  (List.zipWith (fun x y => x * y) a b).sum

/-- Exact Gaussian elimination on an augmented system with the given
number of unknowns; returns `none` when the system is singular or
underdetermined (the `DegenerateFit` situation of the spec). -/
def gaussSolve : Nat → List (List ℚ) → Option (List ℚ)
  | 0, _ => some []
  | n + 1, rows =>
    match rows.find? (fun r => decide (¬ r.headD 0 = 0)) with
    | none => none
    | some piv =>
      let p := piv.headD 1
      let pn := piv.map (fun a => a / p)
      let rest := (rows.erase piv).map
        (fun s => (List.zipWith (fun a b => a - s.headD 0 * b) s pn).tail)
      match gaussSolve n rest with
      | none => none
      | some xs =>
        some ((pn.getLastD 0 - dotProd pn.tail.dropLast xs) :: xs)

/-- Sum of the `m`-th powers of a list of abscissae. -/
def powSum (xs : List ℚ) (m : Nat) : ℚ :=
  (xs.map (fun x => x ^ m)).sum

/-- Modelled from the spec: linear least-squares polynomial fit of the
given degree through sample points, by solving the normal equations
exactly; `none` when the system is degenerate. -/
def polyfit (deg : Nat) (pts : List (ℚ × ℚ)) : Option (List ℚ) :=
  let xs := pts.map Prod.fst
  let row := fun j =>
    ((List.range (deg + 1)).map (fun i => powSum xs (i + j))) ++
      [(pts.map (fun p => p.1 ^ j * p.2)).sum]
  gaussSolve (deg + 1) ((List.range (deg + 1)).map row)

/-- Slope of the least-squares straight line through sample points
(closed form of the linear regression). -/
def linSlope (pts : List (ℚ × ℚ)) : ℚ :=
  let n : ℚ := pts.length
  let sx := (pts.map Prod.fst).sum
  let sy := (pts.map Prod.snd).sum
  let sxy := (pts.map (fun p => p.1 * p.2)).sum
  let sxx := (pts.map (fun p => p.1 ^ 2)).sum
  (n * sxy - sx * sy) / (n * sxx - sx ^ 2)

/-- Intercept of the least-squares straight line through sample points. -/
def linIntercept (pts : List (ℚ × ℚ)) : ℚ :=
  ((pts.map Prod.snd).sum - linSlope pts * (pts.map Prod.fst).sum) /
    (pts.length : ℚ)

/-- Insert into a list sorted by the given Boolean order. -/
def insertBy (le : α → α → Bool) (a : α) : List α → List α
  | [] => [a]
  | b :: t => if le a b then a :: b :: t else b :: insertBy le a t

/-- Insertion sort by the given Boolean order, used to fix a
deterministic processing order for dots. -/
def sortBy (le : α → α → Bool) : List α → List α
  | [] => []
  | a :: t => insertBy le a (sortBy le t)

/-- Median of a list of rationals: middle element after sorting. -/
def median (xs : List ℚ) : ℚ :=
  let s := sortBy (fun a b => a ≤ b) xs
  s.getD (s.length / 2) 0

/-- A sub-pixel point coordinate pair `(x, y)`. -/
abbrev Point := ℚ × ℚ

/-- A detected dot blob: centroid, area, and major/minor axis aspect
(called the axis ratio in the source library). -/
structure Dot where
  x : ℚ
  y : ℚ
  area : ℚ
  aspect : ℚ
deriving DecidableEq

/-- A grayscale image as rows of intensity samples. -/
abbrev Image := List (List ℚ)

/-- An output image whose cells may be vacant (`none`), the
representation needed to speak about vacant pixels of the Unwarper. -/
abbrev Grid := List (List (Option ℚ))

/-- Width and height of an image, as rationals. -/
def dimsOf (mat : Image) : ℚ × ℚ :=
  (((mat.headD []).length : ℚ), (mat.length : ℚ))

/-- Whether a point lies in the centered crop covering the given
fraction of the full extent. -/
def inCrop (w h frac : ℚ) (p : Point) : Bool :=
  |p.1 - w / 2| ≤ frac * w / 2 ∧ |p.2 - h / 2| ≤ frac * h / 2

/-- The usability floor on the number of segmented dots. -/
def minNumDots : Nat := 25

/-- Modelled from the spec: `prep.check_num_dots` — `true` when the
surviving dot count falls below the usability floor, so the pipeline
cannot proceed to grouping. -/
def check_num_dots (dots : List Dot) : Bool :=
  dots.length < minNumDots

/-- Distance from a dot to its nearest distinct neighbour, zero when
it has none. -/
def nearestDist (d : Dot) (dots : List Dot) : ℚ :=
  match (dots.filter (fun e => decide (¬ e = d))).map
      (fun e => ratSqrt ((e.x - d.x) ^ 2 + (e.y - d.y) ^ 2)) with
  | [] => 0
  | v :: t => t.foldl min v

/-- Modelled from the spec: `prep.calc_size_distance` — median dot size
and median nearest-dot distance, estimated over the centered crop under
the flat-field assumption. -/
def calc_size_distance (mat : Image) (dots : List Dot) (frac : ℚ) :
    ℚ × ℚ :=
  let wh := dimsOf mat
  let crop := dots.filter (fun d => inCrop wh.1 wh.2 frac (d.x, d.y))
  (median (crop.map (fun d => d.area)),
   median (crop.map (fun d => nearestDist d crop)))

/-- Modelled from the spec: `prep.select_dots_based_size` — keep dots
whose size lies within the relative band around the median size. -/
def select_dots_based_size (dots : List Dot) (size frac : ℚ) :
    List Dot :=
  dots.filter (fun d => decide (|d.area - size| ≤ frac * size))

/-- Modelled from the spec: `prep.select_dots_based_ratio` (renamed to
avoid a reserved suffix) — keep dots whose fitted-ellipse major/minor
axis aspect is at most `1 + frac`. -/
def select_dots_based_aspect (dots : List Dot) (frac : ℚ) : List Dot :=
  dots.filter (fun d => decide (d.aspect ≤ 1 + frac))

/-- Modelled from the spec: `prep.calc_hor_slope` — global slope of the
horizontal grid direction, by linear regression over the dot centroids
of the centered crop. -/
def calc_hor_slope (mat : Image) (dots : List Dot) (frac : ℚ) : ℚ :=
  let wh := dimsOf mat
  linSlope ((dots.filter (fun d => inCrop wh.1 wh.2 frac (d.x, d.y))).map
    (fun d => (d.x, d.y)))

/-- Modelled from the spec: `prep.calc_ver_slope` — global slope of the
vertical grid direction (x regressed on y over the centered crop). -/
def calc_ver_slope (mat : Image) (dots : List Dot) (frac : ℚ) : ℚ :=
  let wh := dimsOf mat
  linSlope ((dots.filter (fun d => inCrop wh.1 wh.2 frac (d.x, d.y))).map
    (fun d => (d.y, d.x)))

/-- Deterministic sweep order for grouping: by `y`, then by `x`. -/
def ptLE (p q : Point) : Bool :=
  decide (p.2 < q.2 ∨ (p.2 = q.2 ∧ p.1 ≤ q.1))

/-- Next dot of the line being grown: among the unassigned dots, those
inside the x-window of `miss` grid steps and the y-window given by the
slope and accepted variation; the nearest in x is chosen. -/
def pickNext (slope dist var0 : ℚ) (miss : Nat) (cur : Point)
    (rem : List Point) : Option Point :=
  (rem.filter (fun p =>
      decide (0 < p.1 - cur.1 ∧ p.1 - cur.1 ≤ (miss : ℚ) * dist ∧
        |p.2 - cur.2 - slope * (p.1 - cur.1)| ≤ var0 * dist))).foldl
    (fun acc p =>
      match acc with
      | none => some p
      | some q => if p.1 < q.1 then some p else some q) none

/-- Grow one line from the current dot, removing each chosen dot from
the pool of unassigned dots; the fuel bounds the number of steps. -/
def growLine (slope dist var0 : ℚ) (miss : Nat) :
    Nat → Point → List Point → List Point × List Point
  | 0, cur, rem => ([cur], rem)
  | fuel + 1, cur, rem =>
    match pickNext slope dist var0 miss cur rem with
    | none => ([cur], rem)
    | some nxt =>
      let res := growLine slope dist var0 miss fuel nxt (rem.erase nxt)
      (cur :: res.1, res.2)

/-- Sweep the sorted dots: repeatedly start a line at the first
unassigned dot and grow it until no dot is within tolerance. -/
def sweepLines (slope dist var0 : ℚ) (miss : Nat) :
    Nat → List Point → List (List Point)
  | 0, _ => []
  | _ + 1, [] => []
  | fuel + 1, cur :: rem =>
    let res := growLine slope dist var0 miss rem.length cur rem
    res.1 :: sweepLines slope dist var0 miss fuel res.2

/-- Modelled from the spec: the candidate horizontal lines produced by
the grouping sweep, before the dot-count post-filter. -/
def candidateLinesHor (dots : List Dot) (slope dist var0 : ℚ)
    (miss : Nat) : List (List Point) :=
  sweepLines slope dist var0 miss (dots.length + 1)
    (sortBy ptLE (dots.map (fun d => (d.x, d.y))))

/-- Maximum dot count over a set of candidate lines. -/
def maxLineCount (lines : List (List Point)) : Nat :=
  lines.foldl (fun m l => max m l.length) 0

/-- Modelled from the spec: `prep.group_dots_hor_lines` — group dots
into horizontal lines, then drop every line whose dot count is below
`acceptedFrac` times the maximum dot count over the candidate lines. -/
def group_dots_hor_lines (dots : List Dot) (slope dist var0 : ℚ)
    (miss : Nat) (acceptedFrac : ℚ) : List (List Point) :=
  let cands := candidateLinesHor dots slope dist var0 miss
  cands.filter (fun l =>
    decide (¬ ((l.length : ℚ) < acceptedFrac * (maxLineCount cands : ℚ))))

/-- Swap the two coordinates of a point. -/
def swapPt (p : Point) : Point := (p.2, p.1)

/-- Swap the centroid coordinates of a dot. -/
def swapDot (d : Dot) : Dot := { d with x := d.y, y := d.x }

/-- Modelled from the spec: `prep.group_dots_ver_lines` — the vertical
direction, by symmetry through a coordinate swap. -/
def group_dots_ver_lines (dots : List Dot) (slope dist var0 : ℚ)
    (miss : Nat) (acceptedFrac : ℚ) : List (List Point) :=
  (group_dots_hor_lines (dots.map swapDot) slope dist var0 miss
      acceptedFrac).map (fun l => l.map swapPt)

/-- Second-order polynomial fitted through the dots of a line, with a
zero polynomial standing for a degenerate fit. -/
def parabolaFitOf (l : List Point) : List ℚ :=
  (polyfit 2 l).getD [0, 0, 0]

/-- Conversion from a vertical offset to a perpendicular distance for
a line of the given slope. -/
def perpFactor (slope : ℚ) : ℚ :=
  1 / ratSqrt (1 + slope ^ 2)

/-- Perpendicular deviation of a dot from the parabola fitted through
the dots of its line. -/
def perpDev (slope : ℚ) (l : List Point) (p : Point) : ℚ :=
  |p.2 - polyEval (parabolaFitOf l) p.1| * perpFactor slope

/-- Modelled from the spec: `prep.remove_residual_dots_hor` — fit a
parabola through the dots of each line, then drop the dots whose residual
to that fitted parabola exceeds the pixel threshold; a single pass. -/
def remove_residual_dots_hor (lines : List (List Point))
    (slope resid : ℚ) : List (List Point) :=
  lines.map (fun l => l.filter (fun p => decide (perpDev slope l p ≤ resid)))

/-- Modelled from the spec: `prep.remove_residual_dots_ver` — the
vertical direction, by symmetry through a coordinate swap. -/
def remove_residual_dots_ver (lines : List (List Point))
    (slope resid : ℚ) : List (List Point) :=
  (remove_residual_dots_hor (lines.map (fun l => l.map swapPt)) slope
      resid).map (fun l => l.map swapPt)

/-- Modelled from the spec: `post.calc_residual_hor` — per dot, the
distance to the distortion center paired with the deviation from the
parabolic fit of its line, in center-shifted coordinates. -/
def calc_residual_hor (lines : List (List Point)) (xc yc : ℚ) :
    List (ℚ × ℚ) :=
  (lines.map (fun l =>
    let ls := l.map (fun p => (p.1 - xc, p.2 - yc))
    let c := parabolaFitOf ls
    ls.map (fun p =>
      (ratSqrt (p.1 ^ 2 + p.2 ^ 2), |p.2 - polyEval c p.1|)))).flatten

/-- Modelled from the spec: `post.calc_residual_ver` — the vertical
direction, by symmetry through a coordinate swap. -/
def calc_residual_ver (lines : List (List Point)) (xc yc : ℚ) :
    List (ℚ × ℚ) :=
  calc_residual_hor (lines.map (fun l => l.map swapPt)) yc xc

/-- The fixed pixel threshold of the distortion diagnostic. -/
def distortionThreshold : ℚ := 1

/-- Modelled from the spec: `post.check_distortion` — the advisory
diagnostic; flags significant distortion when the maximum or the mean
deviation exceeds the fixed pixel threshold.  A total function on
residual lists: it never raises and alters nothing. -/
def check_distortion (data : List (ℚ × ℚ)) : Bool :=
  decide (distortionThreshold < data.foldl (fun m p => max m p.2) 0) ||
  decide (distortionThreshold <
    (data.map Prod.snd).sum / (data.length : ℚ))

/-- Modelled from the spec: the per-point radial coordinate transform
shared by the line unwarpers — the polynomial maps the radius, and the
center offset is rescaled accordingly; a point at the center is kept. -/
def unwarpPoint (xc yc : ℚ) (facts : List ℚ) (p : Point) : Point :=
  let xu := p.1 - xc
  let yu := p.2 - yc
  let r := ratSqrt (xu ^ 2 + yu ^ 2)
  if r = 0 then p
  else (xc + polyEval facts r / r * xu, yc + polyEval facts r / r * yu)

/-- Modelled from the spec: `post.unwarp_line_backward` — apply the
backward model to every dot of every line, producing new lines. -/
def unwarp_line_backward (lines : List (List Point)) (xc yc : ℚ)
    (facts : List ℚ) : List (List Point) :=
  lines.map (fun l => l.map (unwarpPoint xc yc facts))

/-- Modelled from the spec: `post.unwarp_line_forward` — apply the
forward model to every dot of every line, producing new lines. -/
def unwarp_line_forward (lines : List (List Point)) (xc yc : ℚ)
    (facts : List ℚ) : List (List Point) :=
  lines.map (fun l => l.map (unwarpPoint xc yc facts))

/-- Clamp an integer index into `[0, n)` as a natural number. -/
def clampIdx (i : Int) (n : Nat) : Nat :=
  (max 0 (min i ((n : Int) - 1))).toNat

/-- Intensity sample of an image at clamped integer coordinates. -/
def getPix (mat : Image) (i j : Int) : ℚ :=
  (mat.getD (clampIdx i mat.length) []).getD
    (clampIdx j (mat.headD []).length) 0

/-- Sub-pixel bilinear interpolation of an image at `(x, y)` (column,
row), with edge clamping. -/
def bilinear (mat : Image) (x y : ℚ) : ℚ :=
  let i0 := ⌊y⌋
  let j0 := ⌊x⌋
  let fy := y - (i0 : ℚ)
  let fx := x - (j0 : ℚ)
  (1 - fy) * (1 - fx) * getPix mat i0 j0 +
    (1 - fy) * fx * getPix mat i0 (j0 + 1) +
    fy * (1 - fx) * getPix mat (i0 + 1) j0 +
    fy * fx * getPix mat (i0 + 1) (j0 + 1)

/-- Modelled from the spec: `post.unwarp_image_backward` — for every
destination pixel, map through the backward model and sample the source
with sub-pixel interpolation; every destination cell is populated. -/
def unwarp_image_backward (mat : Image) (xc yc : ℚ)
    (facts : List ℚ) : Grid :=
  (List.range mat.length).map (fun i =>
    (List.range (mat.headD []).length).map (fun j =>
      let src := unwarpPoint xc yc facts ((j : ℚ), (i : ℚ))
      some (bilinear mat src.1 src.2)))

/-- A grid of vacant cells. -/
def emptyGrid (h w : Nat) : Grid :=
  List.replicate h (List.replicate w none)

/-- Write one cell of a grid (no-op outside its extent). -/
def setPix (g : Grid) (i j : Nat) (v : ℚ) : Grid :=
  g.set i ((g.getD i []).set j (some v))

/-- Modelled from the spec: `post.unwarp_image_forward` — scatter every
source pixel to its destination under the forward model with nearest
rounding; destination cells never hit stay vacant. -/
def unwarp_image_forward (mat : Image) (xc yc : ℚ)
    (facts : List ℚ) : Grid :=
  let h := mat.length
  let w := (mat.headD []).length
  (List.range h).foldl (fun g (i : Nat) =>
    (List.range w).foldl (fun g (j : Nat) =>
      let dst := unwarpPoint xc yc facts (((j : Nat) : ℚ), ((i : Nat) : ℚ))
      let di := ⌊dst.2 + 1 / 2⌋
      let dj := ⌊dst.1 + 1 / 2⌋
      if 0 ≤ di ∧ di < (h : Int) ∧ 0 ≤ dj ∧ dj < (w : Int) then
        setPix g di.toNat dj.toNat ((mat.getD i []).getD j 0)
      else g) g) (emptyGrid h w)

/-- Curvature (second-order coefficient) of the parabola fitted
through a line, used to pick the most representative lines. -/
def quadCoefOf (l : List Point) : ℚ :=
  (parabolaFitOf l).getD 2 0

/-- First element minimizing the given rational key, `none` on an
empty list. -/
def argminBy (f : α → ℚ) : List α → Option α
  | [] => none
  | v :: t => some (t.foldl (fun best p => if f p < f best then p else best) v)

/-- Modelled from the spec: `proc.find_cod_coarse` — the coarse center
of distortion: the intersection of the straightest horizontal line and
the straightest vertical line (least curvature), each represented by
its least-squares straight line; no iterative optimization. -/
def find_cod_coarse (hor ver : List (List Point)) : ℚ × ℚ :=
  match argminBy (fun l => |quadCoefOf l|) hor,
      argminBy (fun l => |quadCoefOf (l.map swapPt)|) ver with
  | some lh, some lv =>
    let bh := linSlope lh
    let ch := linIntercept lh
    let bv := linSlope (lv.map swapPt)
    let cv := linIntercept (lv.map swapPt)
    let xc := (bv * ch + cv) / (1 - bh * bv)
    (xc, bh * xc + ch)
  | _, _ => (0, 0)

/-- Per-line constraint samples for the backward model of a horizontal
line: in center-shifted coordinates, pair the observed radius of each
dot with the radius of its straightened position (the dot moved onto
the least-squares straight line of its group). -/
def lineSamplesHor (xc yc : ℚ) (l : List Point) : List (ℚ × ℚ) :=
  let ls := l.map (fun p => (p.1 - xc, p.2 - yc))
  let b := linSlope ls
  let c := linIntercept ls
  ls.map (fun p =>
    (ratSqrt (p.1 ^ 2 + p.2 ^ 2),
     ratSqrt (p.1 ^ 2 + (b * p.1 + c) ^ 2)))

/-- Per-line constraint samples for a vertical line, by symmetry. -/
def lineSamplesVer (xc yc : ℚ) (l : List Point) : List (ℚ × ℚ) :=
  lineSamplesHor yc xc (l.map swapPt)

/-- Componentwise average of a list of coefficient vectors. -/
def avgVecs (vs : List (List ℚ)) : List ℚ :=
  match vs with
  | [] => []
  | v :: t =>
    (t.foldl (List.zipWith (fun a b => a + b)) v).map
      (fun a => a / ((vs.length : Nat) : ℚ))

/-- Modelled from the spec: `proc.calc_coef_backward` — fit, per line,
polynomial coefficients mapping the observed radius of each dot to the
radius of its straightened position (the straight-line constraint), by
linear least squares; the per-line fits are averaged across all lines
of both directions into one vector of length `numc`; `none` is the
`DegenerateFit` outcome. -/
def calc_coef_backward (hor ver : List (List Point)) (xc yc : ℚ)
    (numc : Nat) : Option (List ℚ) :=
  let sets := hor.map (lineSamplesHor xc yc) ++
    ver.map (lineSamplesVer xc yc)
  match sets.mapM (fun s => polyfit (numc - 1) s) with
  | none => none
  | some fits => if fits.isEmpty then none else some (avgVecs fits)

/-- Modelled from the spec: `proc.calc_coef_forward` — the dual
formulation: fit the observed (distorted) radius as a function of the
ideal (undistorted) radius, with the same aggregation. -/
def calc_coef_forward (hor ver : List (List Point)) (xc yc : ℚ)
    (numc : Nat) : Option (List ℚ) :=
  let sets := (hor.map (lineSamplesHor xc yc) ++
    ver.map (lineSamplesVer xc yc)).map (fun s => s.map Prod.swap)
  match sets.mapM (fun s => polyfit (numc - 1) s) with
  | none => none
  | some fits => if fits.isEmpty then none else some (avgVecs fits)

/-- Largest dot radius about the center, the upper end of the valid
radius range used when inverting the forward model numerically. -/
def rmaxOf (hor ver : List (List Point)) (xc yc : ℚ) : ℚ :=
  (((hor ++ ver).flatten).map
    (fun p => ratSqrt ((p.1 - xc) ^ 2 + (p.2 - yc) ^ 2))).foldl max 0

/-- Sampling resolution of the numeric polynomial inversion (an
implementation-tunable parameter per the spec). -/
def numInvSamples : Nat := 20

/-- Evenly spaced sample radii over `[0, rmax]`. -/
def sampleRadii (rmax : ℚ) (n : Nat) : List ℚ :=
  (List.range (n + 1)).map (fun j => rmax * (j : ℚ) / (n : ℚ))

/-- Modelled from the spec: `proc.calc_coef_backward_from_forward` —
first fit the forward model, then derive a backward model by sampling
the forward polynomial over the valid radius range and fitting a new
polynomial to the inverse samples (forward value paired back to its
radius), rather than by symbolic inversion. -/
def calc_coef_backward_from_forward (hor ver : List (List Point))
    (xc yc : ℚ) (numc : Nat) : Option (List ℚ × List ℚ) :=
  match calc_coef_forward hor ver xc yc numc with
  | none => none
  | some ff =>
    match polyfit (numc - 1) ((sampleRadii (rmaxOf hor ver xc yc)
        numInvSamples).map (fun r => (polyEval ff r, r))) with
    | none => none
    | some bf => some (ff, bf)

/-- Observable stage events of one calibration run of the example
script; stages that receive the distortion center carry it. -/
inductive Event where
  | loadImage : Event
  | binarizeCheck : Event
  | sizeDistance : Event
  | selectSize : Event
  | selectAspect : Event
  | slopes : Event
  | groupHor : Event
  | groupVer : Event
  | removeResHor : Event
  | removeResVer : Event
  | residualHor (xc yc : ℚ) : Event
  | residualVer (xc yc : ℚ) : Event
  | checkDist (b : Bool) : Event
  | codCoarse (xc yc : ℚ) : Event
  | coefBackward (xc yc : ℚ) : Event
  | unwarpImageBW (xc yc : ℚ) : Event
  | unwarpLineBW (xc yc : ℚ) : Event
  | coefForward (xc yc : ℚ) : Event
  | unwarpImageFW (xc yc : ℚ) : Event
  | unwarpLineFW (xc yc : ℚ) : Event
  | coefBwFromFw (xc yc : ℚ) : Event
deriving DecidableEq

/-- Terminal failures of a calibration attempt. -/
inductive CalibError where
  | insufficientDots : CalibError
  | degenerateFit : CalibError
deriving DecidableEq

/-- Durable artifacts of a completed calibration run of the script. -/
structure CalibResult where
  matFinal : Image
  xcenter : ℚ
  ycenter : ℚ
  coefBW : List ℚ
  coefFW : List ℚ
  coefFF2 : List ℚ
  coefBW2 : List ℚ
  correctedBW : Grid
  correctedFW : Grid
  correctedBWFW : Grid
deriving DecidableEq

/-- Outcome of one run of the script: the stage trace and either the
calibration artifacts or the terminal error. -/
structure PipeOut where
  trace : List Event
  outcome : Except CalibError CalibResult

/-- Center arguments received by a stage, when it takes one ( the
`codCoarse` event records the producer, not a consumer). -/
def eventCenter : Event → Option (ℚ × ℚ)
  | .residualHor a b => some (a, b)
  | .residualVer a b => some (a, b)
  | .coefBackward a b => some (a, b)
  | .unwarpImageBW a b => some (a, b)
  | .unwarpLineBW a b => some (a, b)
  | .coefForward a b => some (a, b)
  | .unwarpImageFW a b => some (a, b)
  | .unwarpLineFW a b => some (a, b)
  | .coefBwFromFw a b => some (a, b)
  | _ => none

/-- Whether an event is the center estimation itself. -/
def isCod : Event → Bool
  | .codCoarse _ _ => true
  | _ => false

/-- Centers received by the stages that run after the center has been
estimated. -/
def downstreamCenters (tr : List Event) : List (ℚ × ℚ) :=
  (tr.dropWhile (fun e => !isCod e)).filterMap eventCenter

/-- The trace prefix before the center estimation. -/
def preCodEvents (tr : List Event) : List Event :=
  tr.takeWhile (fun e => !isCod e)

/-- Centers received by residual computations before the center has
been estimated. -/
def preResidualCenters (tr : List Event) : List (ℚ × ℚ) :=
  (preCodEvents tr).filterMap (fun e =>
    match e with
    | .residualHor a b => some (a, b)
    | .residualVer a b => some (a, b)
    | _ => none)

/-- Advisory booleans produced before the center has been estimated. -/
def preChecks (tr : List Event) : List Bool :=
  (preCodEvents tr).filterMap (fun e =>
    match e with
    | .checkDist b => some b
    | _ => none)

/-- Crop fraction used throughout the script. -/
def cropFrac : ℚ := 3 / 10

/-- Number of polynomial coefficients used by the script. -/
def numCoefDefault : Nat := 5

/-- Dot candidates surviving the size and aspect selections, as in the
prep stage of the script. -/
def dotsFiltered (mat0 : Image) (cands : List Dot) : List Dot :=
  select_dots_based_aspect
    (select_dots_based_size cands (calc_size_distance mat0 cands cropFrac).1
      (3 / 10)) (1 / 2)

/-- Horizontal grid slope estimated by the script. -/
def horSlopeOf (mat0 : Image) (cands : List Dot) : ℚ :=
  calc_hor_slope mat0 (dotsFiltered mat0 cands) cropFrac

/-- Vertical grid slope estimated by the script. -/
def verSlopeOf (mat0 : Image) (cands : List Dot) : ℚ :=
  calc_ver_slope mat0 (dotsFiltered mat0 cands) cropFrac

/-- Horizontal line set of the script: grouped with `num_dot_miss = 6`
and `accepted_ratio = 0.7`, then residual-cleaned at 2.0 px. -/
def horLinesOf (mat0 : Image) (cands : List Dot) : List (List Point) :=
  remove_residual_dots_hor
    (group_dots_hor_lines (dotsFiltered mat0 cands) (horSlopeOf mat0 cands)
      (calc_size_distance mat0 cands cropFrac).2 (3 / 10) 6 (7 / 10))
    (horSlopeOf mat0 cands) 2

/-- Vertical line set of the script, symmetrically. -/
def verLinesOf (mat0 : Image) (cands : List Dot) : List (List Point) :=
  remove_residual_dots_ver
    (group_dots_ver_lines (dotsFiltered mat0 cands) (verSlopeOf mat0 cands)
      (calc_size_distance mat0 cands cropFrac).2 (3 / 10) 6 (7 / 10))
    (verSlopeOf mat0 cands) 2

/-- The distortion center of the run: the coarse estimate (the fine
search stays commented out in the script). -/
def codOf (mat0 : Image) (cands : List Dot) : ℚ × ℚ :=
  find_cod_coarse (horLinesOf mat0 cands) (verLinesOf mat0 cands)

/-- The orchestration of `examples/example_01.py` over the modelled
primitives: load, binarize and check the dot count, group and clean
the line sets, run the pre-correction diagnostics at center `(0, 0)`,
estimate the center once, then fit and apply the backward, forward and
backward-from-forward models, with the diagnostics after each.  The
loaded image `mat0` is only ever read. -/
def pipeline (mat0 : Image) (cands : List Dot) : PipeOut :=
  if check_num_dots cands then
    { trace := [.loadImage, .binarizeCheck],
      outcome := .error .insufficientDots }
  else
    let hl := horLinesOf mat0 cands
    let vl := verLinesOf mat0 cands
    let cod := codOf mat0 cands
    let preTrace : List Event :=
      [.loadImage, .binarizeCheck, .sizeDistance, .selectSize,
       .selectAspect, .slopes, .groupHor, .groupVer, .removeResHor,
       .removeResVer, .residualHor 0 0, .residualVer 0 0,
       .checkDist (check_distortion (calc_residual_hor hl 0 0)),
       .checkDist (check_distortion (calc_residual_ver vl 0 0)),
       .codCoarse cod.1 cod.2]
    match calc_coef_backward hl vl cod.1 cod.2 numCoefDefault with
    | none =>
      { trace := preTrace ++ [.coefBackward cod.1 cod.2],
        outcome := .error .degenerateFit }
    | some bw =>
      let uh := unwarp_line_backward hl cod.1 cod.2 bw
      let uv := unwarp_line_backward vl cod.1 cod.2 bw
      let traceBW : List Event :=
        [.coefBackward cod.1 cod.2, .unwarpImageBW cod.1 cod.2,
         .unwarpLineBW cod.1 cod.2, .unwarpLineBW cod.1 cod.2,
         .residualHor cod.1 cod.2, .residualVer cod.1 cod.2,
         .checkDist (check_distortion (calc_residual_hor uh cod.1 cod.2)),
         .checkDist (check_distortion (calc_residual_ver uv cod.1 cod.2))]
      match calc_coef_forward hl vl cod.1 cod.2 numCoefDefault with
      | none =>
        { trace := preTrace ++ traceBW ++ [.coefForward cod.1 cod.2],
          outcome := .error .degenerateFit }
      | some fw =>
        let ufh := unwarp_line_forward hl cod.1 cod.2 fw
        let ufv := unwarp_line_forward vl cod.1 cod.2 fw
        let traceFW : List Event :=
          [.coefForward cod.1 cod.2, .unwarpImageFW cod.1 cod.2,
           .unwarpLineFW cod.1 cod.2, .unwarpLineFW cod.1 cod.2,
           .residualHor cod.1 cod.2, .residualVer cod.1 cod.2,
           .checkDist (check_distortion (calc_residual_hor ufh cod.1 cod.2)),
           .checkDist (check_distortion (calc_residual_ver ufv cod.1 cod.2))]
        match calc_coef_backward_from_forward hl vl cod.1 cod.2
            numCoefDefault with
        | none =>
          { trace := preTrace ++ traceBW ++ traceFW ++
              [.coefBwFromFw cod.1 cod.2],
            outcome := .error .degenerateFit }
        | some fb =>
          let ubh := unwarp_line_backward hl cod.1 cod.2 fb.2
          let ubv := unwarp_line_backward vl cod.1 cod.2 fb.2
          { trace := preTrace ++ traceBW ++ traceFW ++
              [.coefBwFromFw cod.1 cod.2, .unwarpImageBW cod.1 cod.2,
               .unwarpLineBW cod.1 cod.2, .unwarpLineBW cod.1 cod.2,
               .residualHor cod.1 cod.2, .residualVer cod.1 cod.2,
               .checkDist (check_distortion
                 (calc_residual_hor ubh cod.1 cod.2)),
               .checkDist (check_distortion
                 (calc_residual_ver ubv cod.1 cod.2))],
            outcome := .ok
              { matFinal := mat0
                xcenter := cod.1
                ycenter := cod.2
                coefBW := bw
                coefFW := fw
                coefFF2 := fb.1
                coefBW2 := fb.2
                correctedBW := unwarp_image_backward mat0 cod.1 cod.2 bw
                correctedFW := unwarp_image_forward mat0 cod.1 cod.2 fw
                correctedBWFW :=
                  unwarp_image_backward mat0 cod.1 cod.2 fb.2 } }

/-- A left fold of `max` exceeds a bound exactly when the seed or some
list element does. -/
theorem foldl_max_lt_iff (l : List ℚ) (a c : ℚ) :
    c < l.foldl max a ↔ c < a ∨ ∃ x ∈ l, c < x := by
  induction l generalizing a with
  | nil => simp
  | cons x t ih =>
    simp only [List.foldl_cons, ih, lt_max_iff, List.mem_cons]
    constructor
    · rintro ((h | h) | ⟨y, hy, h⟩)
      · exact Or.inl h
      · exact Or.inr ⟨x, Or.inl rfl, h⟩
      · exact Or.inr ⟨y, Or.inr hy, h⟩
    · rintro (h | ⟨y, rfl | hy, h⟩)
      · exact Or.inl (Or.inl h)
      · exact Or.inl (Or.inr h)
      · exact Or.inr ⟨y, hy, h⟩

/-- C1: when segmentation yields too few usable dots, the pipeline
signals `InsufficientDots` as an error that is terminal for the run:
the trace stops at the binarization check, so no grouping, center
estimation, model fitting or unwarping stage runs, and the outcome
carries no substituted default. -/
theorem insufficient_dots_terminal (mat0 : Image) (cands : List Dot)
    (h : check_num_dots cands = true) :
    (pipeline mat0 cands).outcome =
      Except.error CalibError.insufficientDots ∧
    (pipeline mat0 cands).trace = [Event.loadImage, Event.binarizeCheck] := by
  simp [pipeline, h]

/-- Witness for C1 at a concrete input: the empty dot list is below the
usability floor and the run terminates with `InsufficientDots`. -/
theorem insufficient_dots_terminal_witness :
    check_num_dots [] = true ∧
    ((pipeline [[0]] []).outcome =
        Except.error CalibError.insufficientDots ∧
     (pipeline [[0]] []).trace = [Event.loadImage, Event.binarizeCheck]) :=
  ⟨by decide, insufficient_dots_terminal [[0]] [] (by decide)⟩

/-- C2: the distortion diagnostic is a total advisory Boolean on every
residual list — it flags significance exactly when the maximum or the
mean deviation exceeds the fixed pixel threshold, never raises (it is
a total function to `Bool`), and touches no model or pipeline state
(it reads only its residual-list argument). -/
theorem check_distortion_advisory (data : List (ℚ × ℚ)) :
    check_distortion data = true ↔
    ((∃ p ∈ data, distortionThreshold < p.2) ∨
     distortionThreshold * (data.length : ℚ) < (data.map Prod.snd).sum) := by
  have hfold : data.foldl (fun m p => max m p.2) 0 =
      (data.map Prod.snd).foldl max 0 := by
    rw [List.foldl_map]
  simp only [check_distortion, Bool.or_eq_true, decide_eq_true_eq, hfold,
    foldl_max_lt_iff]
  have h0 : ¬ distortionThreshold < (0 : ℚ) := by
    norm_num [distortionThreshold]
  rcases Nat.eq_zero_or_pos data.length with hl | hl
  · rw [List.length_eq_zero] at hl
    subst hl
    simp [h0]
  · have hlen : (0 : ℚ) < (data.length : ℚ) := by exact_mod_cast hl
    rw [lt_div_iff₀ hlen]
    simp only [List.mem_map]
    constructor
    · rintro ((h | ⟨x, ⟨p, hp, rfl⟩, hx⟩) | h)
      · exact absurd h h0
      · exact Or.inl ⟨p, hp, hx⟩
      · exact Or.inr h
    · rintro (⟨p, hp, hx⟩ | h)
      · exact Or.inl (Or.inr ⟨p.2, ⟨p, hp, rfl⟩, hx⟩)
      · exact Or.inr h

/-- C3: the grouping post-filter keeps exactly the candidate lines
whose dot count is at or above `acceptedFrac` times the maximum dot
count over all candidate lines of that direction, and drops exactly
those below the bound. -/
theorem grouping_accepted_filter (dots : List Dot)
    (slope dist var0 acceptedFrac : ℚ) (miss : Nat) (l : List Point) :
    l ∈ group_dots_hor_lines dots slope dist var0 miss acceptedFrac ↔
    (l ∈ candidateLinesHor dots slope dist var0 miss ∧
     acceptedFrac *
       (maxLineCount (candidateLinesHor dots slope dist var0 miss) : ℚ) ≤
       (l.length : ℚ)) := by
  simp [group_dots_hor_lines, List.mem_filter, not_lt]

/-- C7: the residual cleanup is a single pass per line — line by line,
a dot survives exactly when its perpendicular deviation from the
parabola fitted through the original dots of its line is within the
pixel threshold; the criterion is never re-evaluated against a refit. -/
theorem residual_cleanup_one_pass (lines : List (List Point))
    (slope resid : ℚ) :
    List.Forall₂ (fun outl inl => ∀ p : Point,
        p ∈ outl ↔ (p ∈ inl ∧ perpDev slope inl p ≤ resid))
      (remove_residual_dots_hor lines slope resid) lines := by
  induction lines with
  | nil => simp [remove_residual_dots_hor]
  | cons l t ih =>
    refine List.Forall₂.cons ?_ ?_
    · intro p
      simp [List.mem_filter]
    · simp only [remove_residual_dots_hor] at ih ⊢
      exact ih

/-- C8: backward unwarping returns a fully populated output image — no
vacant pixels, since every destination cell holds the interpolated
source estimate of its unique preimage. -/
theorem unwarp_backward_fully_populated (mat : Image) (xc yc : ℚ)
    (facts : List ℚ) :
    (unwarp_image_backward mat xc yc facts).all
      (fun row => row.all (fun c => c.isSome)) = true := by
  rw [List.all_eq_true]
  intro row hrow
  simp only [unwarp_image_backward, List.mem_map] at hrow
  obtain ⟨i, _, rfl⟩ := hrow
  rw [List.all_eq_true]
  intro c hc
  simp only [List.mem_map] at hc
  obtain ⟨j, _, rfl⟩ := hc
  rfl

/-- C5: the backward-from-forward fit first fits the forward model and
returns the pair (forward, backward) where the backward coefficients
come from a polynomial fit to the numeric inverse samples of the
fitted forward polynomial over the valid radius range — each sample
pairs a forward value back to its radius — not from symbolic
inversion. -/
theorem backward_from_forward_structure (hor ver : List (List Point))
    (xc yc : ℚ) (numc : Nat) :
    calc_coef_backward_from_forward hor ver xc yc numc = none ∨
    ∃ ff bf,
      calc_coef_backward_from_forward hor ver xc yc numc = some (ff, bf) ∧
      calc_coef_forward hor ver xc yc numc = some ff ∧
      polyfit (numc - 1)
        ((sampleRadii (rmaxOf hor ver xc yc) numInvSamples).map
          (fun r => (polyEval ff r, r))) = some bf := by
  cases hf : calc_coef_forward hor ver xc yc numc with
  | none => exact Or.inl (by simp [calc_coef_backward_from_forward, hf])
  | some ff =>
    cases hp : polyfit (numc - 1)
        ((sampleRadii (rmaxOf hor ver xc yc) numInvSamples).map
          (fun r => (polyEval ff r, r))) with
    | none =>
      exact Or.inl (by simp [calc_coef_backward_from_forward, hf, hp])
    | some bf =>
      exact Or.inr ⟨ff, bf,
        by simp [calc_coef_backward_from_forward, hf, hp], rfl, hp⟩

/-- C4: no pipeline stage mutates the loaded image: on a completed run
the image held at the end equals the loaded one, and each corrected
image is a newly produced value of the respective unwarper applied to
that unchanged input (on a failed run there is no output at all). -/
theorem pipeline_image_readonly (mat0 : Image) (cands : List Dot) :
    (∃ e, (pipeline mat0 cands).outcome = Except.error e) ∨
    ∃ res, (pipeline mat0 cands).outcome = Except.ok res ∧
      res.matFinal = mat0 ∧
      res.correctedBW = unwarp_image_backward mat0 (codOf mat0 cands).1
        (codOf mat0 cands).2 res.coefBW ∧
      res.correctedFW = unwarp_image_forward mat0 (codOf mat0 cands).1
        (codOf mat0 cands).2 res.coefFW ∧
      res.correctedBWFW = unwarp_image_backward mat0 (codOf mat0 cands).1
        (codOf mat0 cands).2 res.coefBW2 := by
  by_cases h : check_num_dots cands = true
  · exact Or.inl ⟨CalibError.insufficientDots, by simp [pipeline, h]⟩
  · simp only [pipeline, h, if_false, Bool.false_eq_true]
    cases hb : calc_coef_backward (horLinesOf mat0 cands)
        (verLinesOf mat0 cands) (codOf mat0 cands).1 (codOf mat0 cands).2
        numCoefDefault with
    | none => exact Or.inl ⟨CalibError.degenerateFit, rfl⟩
    | some bw =>
      cases hf : calc_coef_forward (horLinesOf mat0 cands)
          (verLinesOf mat0 cands) (codOf mat0 cands).1 (codOf mat0 cands).2
          numCoefDefault with
      | none => exact Or.inl ⟨CalibError.degenerateFit, rfl⟩
      | some fw =>
        cases hbf : calc_coef_backward_from_forward (horLinesOf mat0 cands)
            (verLinesOf mat0 cands) (codOf mat0 cands).1
            (codOf mat0 cands).2 numCoefDefault with
        | none => exact Or.inl ⟨CalibError.degenerateFit, rfl⟩
        | some fb => exact Or.inr ⟨_, rfl, rfl, rfl, rfl, rfl⟩

/-- C6: the distortion center is computed exactly once per run (at most
one center-estimation event occurs) and the identical pair — the value
of the single coarse estimate — is received by every downstream stage:
the coefficient fits, the unwarp calls and the post-correction residual
computations. -/
theorem center_single_and_shared (mat0 : Image) (cands : List Dot) :
    (∃ k, downstreamCenters (pipeline mat0 cands).trace =
        List.replicate k (codOf mat0 cands)) ∧
    (pipeline mat0 cands).trace.countP isCod ≤ 1 := by
  by_cases h : check_num_dots cands = true
  · refine ⟨⟨0, ?_⟩, ?_⟩
    · simp only [pipeline, h]
      rfl
    · simp only [pipeline, h]
      exact Nat.zero_le 1
  · simp only [pipeline, h, if_false, Bool.false_eq_true]
    cases hb : calc_coef_backward (horLinesOf mat0 cands)
        (verLinesOf mat0 cands) (codOf mat0 cands).1 (codOf mat0 cands).2
        numCoefDefault with
    | none => exact ⟨⟨1, rfl⟩, Nat.le_refl 1⟩
    | some bw =>
      cases hf : calc_coef_forward (horLinesOf mat0 cands)
          (verLinesOf mat0 cands) (codOf mat0 cands).1 (codOf mat0 cands).2
          numCoefDefault with
      | none => exact ⟨⟨7, rfl⟩, Nat.le_refl 1⟩
      | some fw =>
        cases hbf : calc_coef_backward_from_forward (horLinesOf mat0 cands)
            (verLinesOf mat0 cands) (codOf mat0 cands).1
            (codOf mat0 cands).2 numCoefDefault with
        | none => exact ⟨⟨13, rfl⟩, Nat.le_refl 1⟩
        | some fb => exact ⟨⟨18, rfl⟩, Nat.le_refl 1⟩

/-- C10: before any center has been estimated, the pre-correction
residual computations run with the center fixed at `(0, 0)`, and their
outputs are exactly what the advisory distortion checks of that stage
consume. -/
theorem pre_cod_residuals_at_origin (mat0 : Image) (cands : List Dot) :
    preResidualCenters (pipeline mat0 cands).trace = [] ∨
    (preResidualCenters (pipeline mat0 cands).trace = [(0, 0), (0, 0)] ∧
     preChecks (pipeline mat0 cands).trace =
       [check_distortion (calc_residual_hor (horLinesOf mat0 cands) 0 0),
        check_distortion (calc_residual_ver (verLinesOf mat0 cands) 0 0)]) := by
  by_cases h : check_num_dots cands = true
  · exact Or.inl (by simp only [pipeline, h]; rfl)
  · simp only [pipeline, h, if_false, Bool.false_eq_true]
    cases hb : calc_coef_backward (horLinesOf mat0 cands)
        (verLinesOf mat0 cands) (codOf mat0 cands).1 (codOf mat0 cands).2
        numCoefDefault with
    | none => exact Or.inr ⟨rfl, rfl⟩
    | some bw =>
      cases hf : calc_coef_forward (horLinesOf mat0 cands)
          (verLinesOf mat0 cands) (codOf mat0 cands).1 (codOf mat0 cands).2
          numCoefDefault with
      | none => exact Or.inr ⟨rfl, rfl⟩
      | some fw =>
        cases hbf : calc_coef_backward_from_forward (horLinesOf mat0 cands)
            (verLinesOf mat0 cands) (codOf mat0 cands).1
            (codOf mat0 cands).2 numCoefDefault with
        | none => exact Or.inr ⟨rfl, rfl⟩
        | some fb => exact Or.inr ⟨rfl, rfl⟩

/-- Mutual consistency of a forward/backward model pair at one dot,
within accuracy `eps`: the composite radial factor of the two maps
differs from one by at most `eps` relative to each coordinate offset
(trivially consistent for a dot at the center). -/
def roundTripOK (xc yc : ℚ) (ff bf : List ℚ) (eps : ℚ)
    (p : Point) : Bool :=
  let r := ratSqrt ((p.1 - xc) ^ 2 + (p.2 - yc) ^ 2)
  if r = 0 then true
  else
    let g := polyEval ff r / r
    let r2 := ratSqrt ((g * (p.1 - xc)) ^ 2 + (g * (p.2 - yc)) ^ 2)
    decide (¬ r2 = 0) &&
      decide (|polyEval bf r2 / r2 * g - 1| * |p.1 - xc| ≤ eps) &&
      decide (|polyEval bf r2 / r2 * g - 1| * |p.2 - yc| ≤ eps)

/-- Affine form of the round-trip bound: a composite radial factor
within `eps` of one, relative to the offset, bounds the coordinate
displacement. -/
theorem affine_abs_le (a t u g eps : ℚ)
    (hb : |u * g - 1| * |t - a| ≤ eps) :
    |a + u * (g * (t - a)) - t| ≤ eps := by
  have e : a + u * (g * (t - a)) - t = (u * g - 1) * (t - a) := by ring
  rw [e, abs_mul]
  exact hb

/-- A point consistent for the model pair returns to within `eps` of
itself, in each coordinate, under forward then backward unwarping. -/
theorem unwarpPoint_roundtrip (xc yc eps : ℚ) (ff bf : List ℚ)
    (p : Point) (heps : 0 ≤ eps)
    (h : roundTripOK xc yc ff bf eps p = true) :
    |(unwarpPoint xc yc bf (unwarpPoint xc yc ff p)).1 - p.1| ≤ eps ∧
    |(unwarpPoint xc yc bf (unwarpPoint xc yc ff p)).2 - p.2| ≤ eps := by
  by_cases hr : ratSqrt ((p.1 - xc) ^ 2 + (p.2 - yc) ^ 2) = 0
  · have h1 : unwarpPoint xc yc ff p = p := by
      simp only [unwarpPoint]
      rw [if_pos hr]
    have h2 : unwarpPoint xc yc bf p = p := by
      simp only [unwarpPoint]
      rw [if_pos hr]
    rw [h1, h2]
    simp only [sub_self, abs_zero]
    exact ⟨heps, heps⟩
  · simp only [roundTripOK] at h
    rw [if_neg hr, Bool.and_eq_true, Bool.and_eq_true] at h
    obtain ⟨⟨h2, hx⟩, hy⟩ := h
    rw [decide_eq_true_eq] at h2 hx hy
    have e1 : unwarpPoint xc yc ff p =
        (xc + polyEval ff (ratSqrt ((p.1 - xc) ^ 2 + (p.2 - yc) ^ 2)) /
            ratSqrt ((p.1 - xc) ^ 2 + (p.2 - yc) ^ 2) * (p.1 - xc),
         yc + polyEval ff (ratSqrt ((p.1 - xc) ^ 2 + (p.2 - yc) ^ 2)) /
            ratSqrt ((p.1 - xc) ^ 2 + (p.2 - yc) ^ 2) * (p.2 - yc)) := by
      simp only [unwarpPoint]
      rw [if_neg hr]
    rw [e1]
    simp only [unwarpPoint, add_sub_cancel_left]
    rw [if_neg h2]
    constructor
    · exact affine_abs_le xc p.1 _ _ eps hx
    · exact affine_abs_le yc p.2 _ _ eps hy

/-- Mapping a list and relating each image to its preimage pointwise
gives the elementwise relation between the mapped list and the list. -/
theorem forall₂_map_self {α β : Type} (f : α → β) (R : β → α → Prop)
    (l : List α) (h : ∀ a ∈ l, R (f a) a) :
    List.Forall₂ R (l.map f) l := by
  induction l with
  | nil => simp
  | cons a t ih =>
    simp only [List.map_cons]
    exact List.Forall₂.cons (h a (List.mem_cons_self a t))
      (ih (fun b hb => h b (List.mem_cons_of_mem a hb)))

/-- C9: applying the backward line transform to the forward-transformed
line set, with the same distortion center and a mutually consistent
model pair, recovers every original dot position to within the declared
accuracy of the model `eps`, coordinatewise. -/
theorem unwarp_line_roundtrip (lines : List (List Point))
    (xc yc eps : ℚ) (ff bf : List ℚ) (heps : 0 ≤ eps)
    (hcons : ∀ l ∈ lines, ∀ p ∈ l, roundTripOK xc yc ff bf eps p = true) :
    List.Forall₂ (List.Forall₂ (fun q p : Point =>
        |q.1 - p.1| ≤ eps ∧ |q.2 - p.2| ≤ eps))
      (unwarp_line_backward (unwarp_line_forward lines xc yc ff) xc yc bf)
      lines := by
  have hcomp : unwarp_line_backward (unwarp_line_forward lines xc yc ff)
      xc yc bf = lines.map (fun l =>
        l.map (fun p => unwarpPoint xc yc bf (unwarpPoint xc yc ff p))) := by
    simp [unwarp_line_backward, unwarp_line_forward, List.map_map,
      Function.comp]
  rw [hcomp]
  refine forall₂_map_self _ _ _ (fun l hl => ?_)
  refine forall₂_map_self _ _ _ (fun p hp => ?_)
  exact unwarpPoint_roundtrip xc yc eps ff bf p heps (hcons l hl p hp)

/-- Concrete consistency of the identity model pair at the dot
`(3, 4)` about the center `(0, 0)`, for the round-trip witness. -/
theorem roundTripOK_concrete :
    ∀ l ∈ [[((3 : ℚ), (4 : ℚ))]], ∀ p ∈ l,
      roundTripOK 0 0 [0, 1] [0, 1] 0 p = true := by
  intro l hl p hp
  rw [List.mem_singleton] at hl
  subst hl
  rw [List.mem_singleton] at hp
  subst hp
  have h5 : ratSqrt 25 = 5 := by
    unfold ratSqrt
    norm_num [show isqrt (Int.toNat 25) = 5 from by decide]
  have e : ((3 : ℚ) - 0) ^ 2 + ((4 : ℚ) - 0) ^ 2 = 25 := by norm_num
  have hg : polyEval [0, 1] (5 : ℚ) / 5 = 1 := by simp [polyEval]
  simp only [roundTripOK]
  rw [e, h5, hg]
  have e2 : ((1 : ℚ) * (3 - 0)) ^ 2 + (1 * (4 - 0)) ^ 2 = 25 := by norm_num
  rw [e2, h5]
  norm_num [hg]

/-- Witness for C9 at a concrete input: a single dot at `(3, 4)` about
the center `(0, 0)` with the identity radius polynomial on both sides
is consistent at accuracy zero and returns exactly to its position. -/
theorem unwarp_line_roundtrip_witness :
    (0 : ℚ) ≤ 0 ∧
    (∀ l ∈ [[((3 : ℚ), (4 : ℚ))]], ∀ p ∈ l,
      roundTripOK 0 0 [0, 1] [0, 1] 0 p = true) ∧
    List.Forall₂ (List.Forall₂ (fun q p : Point =>
        |q.1 - p.1| ≤ (0 : ℚ) ∧ |q.2 - p.2| ≤ (0 : ℚ)))
      (unwarp_line_backward
        (unwarp_line_forward [[(3, 4)]] 0 0 [0, 1]) 0 0 [0, 1])
      [[(3, 4)]] :=
  ⟨le_rfl, roundTripOK_concrete,
    unwarp_line_roundtrip [[(3, 4)]] 0 0 0 [0, 1] [0, 1] le_rfl
      roundTripOK_concrete⟩

end Discorpy
